import Mathlib

/-!
Shallow embedding of the deterministic scoring/matching engine of
`llm_pe_matcher` (files `tools.py` and `matcher.py`).

Modelling conventions:
  * JSON numbers become exact rationals (`ℚ`); Python's float arithmetic on
    the small decimal constants involved is exact for every comparison made
    by the engine, so `ℚ` is the faithful idealisation.
  * Python `round(x, 4)` is modelled by `round4` (round half up on exact
    rationals).
  * A Python dict value that may be `None` or `{}` (both falsy, treated
    identically by the code) is modelled as `none`; a truthy range dict is
    `some r` where each bound is itself an `Option ℚ`.
  * Python sets built with `set(x.lower() for x in ...)` are modelled as
    lower-cased, deduplicated lists; only cardinality and membership of
    these sets are observable to the engine.
-/

namespace PEMatcher

/-- Python `max(a, b)` on numbers (returns the larger argument). -/
def qmax (a b : ℚ) : ℚ := if a ≤ b then b else a

/-- Python `min(a, b)` on numbers (returns the smaller argument). -/
def qmin (a b : ℚ) : ℚ := if b ≤ a then b else a

/-- ASCII lower-casing of one character; models Python `str.lower()` on the
ASCII data the engine handles. -/
def lowerChar (c : Char) : Char :=
  if 65 ≤ c.toNat ∧ c.toNat ≤ 90 then Char.ofNat (c.toNat + 32) else c

/-- ASCII lower-casing of a string (Python `str.lower()`). -/
def lowerStr (s : String) : String := ⟨s.data.map lowerChar⟩

/-- Python `round(x, 4)`: rounding to four decimal places, modelled as
round-half-up over exact rationals. -/
def round4 (q : ℚ) : ℚ := (⌊q * 10000 + 1/2⌋ : ℚ) / 10000

/-- A `{min, max}` range dict with optional bounds (`revenue_focus_usd`,
`employee_focus`, `revenue_usd`, `employees`). -/
structure NumRange where
  min : Option ℚ := none
  max : Option ℚ := none
deriving DecidableEq

/-- A fund record of the dataset (`tools.py`, shape used by
`score_with_breakdown`); fields the code reads with `.get(..., default)`
default to the empty collection / empty range. -/
structure Fund where
  name : String
  industries : List String := []
  regions : List String := []
  revenue_focus_usd : NumRange := {}
  employee_focus : NumRange := {}
  deal_types : List String := []
deriving DecidableEq

/-- The criteria dict consumed by `query_pe_db`. `deal_type` is kept as the
raw string (the code lower-cases it before use, and treats the empty string
as absent). -/
structure Criteria where
  industries : List String := []
  regions : List String := []
  revenue_usd : Option NumRange := none
  employees : Option NumRange := none
  deal_type : String := ""
deriving DecidableEq

/-- One factor's subscore dict. Fields that the Python dict only carries in
the `applied` branch keep their default value in the `applied = false` case
(the code then omits them, which is observationally the same: an unapplied
factor adds nothing to the total). String echo fields
(`company_industries`, `fund_industries`, ...) are display-only copies of
inputs and are not modelled. -/
structure Subscore where
  applied : Bool
  weight : ℚ
  raw : ℚ := 0
  contribution : ℚ := 0
  overlap_count : ℕ := 0
  binary_fit : ℚ := 0
  coverage_ratio : Option ℚ := none
  company_range : NumRange := {}
  fund_range : NumRange := {}
deriving DecidableEq

/-- The five subscores of one fund. -/
structure Breakdown where
  industry : Subscore
  region : Subscore
  revenue : Subscore
  employees : Subscore
  deal : Subscore
deriving DecidableEq

/-- Return value of `score_with_breakdown`: `{"score": ..., "subscores": ...}`. -/
structure ScoreResult where
  score : ℚ
  subscores : Breakdown
deriving DecidableEq

/-- One element of the list returned by `query_pe_db`
(`{"fund", "score", "match", "subscores"}`); `match` is a Lean keyword so
the field is `match_`. -/
structure ScoredFund where
  fund : String
  score : ℚ
  match_ : Fund
  subscores : Breakdown
deriving DecidableEq

/-- `_range_coverage` of `tools.py`: overlap coverage ratio of the company
range within the fund range, `none` when any bound is missing; the company
length is clamped below by the epsilon `1e-9`. -/
def _range_coverage : Option ℚ → Option ℚ → Option ℚ → Option ℚ → Option ℚ
  | some cmin, some cmax, some fmin, some fmax =>
    if cmax < cmin ∨ fmax < fmin then some 0
    else
      let inter_min := qmax cmin fmin
      let inter_max := qmin cmax fmax
      let inter := qmax 0 (inter_max - inter_min)
      let clen := qmax (1 / 1000000000) (cmax - cmin)
      some (qmax 0 (qmin 1 (inter / clen)))
  | _, _, _, _ => none

/-- The industry block of `score_with_breakdown`: `inds` is the lower-cased,
deduplicated criteria industry set. Returns the subscore dict together with
the unrounded contribution added to the running total. -/
def industryScore (inds : List String) (f : Fund) : Subscore × ℚ :=
  if inds ≠ [] then
    let fund_inds := f.industries.map lowerStr
    let overlap := (inds.inter fund_inds).length
    let raw : ℚ := qmin 1 ((overlap : ℚ) / qmax 1 (inds.length : ℚ))
    let contrib := 0.4 * raw
    ({ applied := true, raw := raw, overlap_count := overlap, weight := 0.4,
       contribution := round4 contrib }, contrib)
  else ({ applied := false, weight := 0.4 }, 0)

/-- The region block of `score_with_breakdown`. -/
def regionScore (regs : List String) (f : Fund) : Subscore × ℚ :=
  if regs ≠ [] then
    let fund_regs := f.regions.map lowerStr
    let overlap := (regs.inter fund_regs).length
    let raw : ℚ := if 0 < overlap then 1 else 0
    let contrib := 0.2 * raw
    ({ applied := true, raw := raw, overlap_count := overlap, weight := 0.2,
       contribution := round4 contrib }, contrib)
  else ({ applied := false, weight := 0.2 }, 0)

/-- The revenue and employees blocks of `score_with_breakdown` (identical up
to the weight and the ranges compared). The `lo_ok` / `hi_ok` matches mirror
Python's short-circuit `a is None or b is None or a >= b`. -/
def rangeFitScore (w : ℚ) (cr : Option NumRange) (fr : NumRange) : Subscore × ℚ :=
  match cr with
  | some r =>
    let lo_ok : Bool :=
      match r.min, fr.min with
      | some a, some b => decide (b ≤ a)
      | _, _ => true
    let hi_ok : Bool :=
      match r.max, fr.max with
      | some a, some b => decide (a ≤ b)
      | _, _ => true
    let binary_fit : ℚ := if lo_ok && hi_ok then 1 else 0
    let coverage := _range_coverage r.min r.max fr.min fr.max
    let raw := binary_fit
    let contrib := w * raw
    ({ applied := true, raw := raw, binary_fit := binary_fit,
       coverage_ratio := coverage, company_range := r, fund_range := fr,
       weight := w, contribution := round4 contrib }, contrib)
  | none => ({ applied := false, weight := w }, 0)

/-- The deal-type block of `score_with_breakdown`; `deal` is already
lower-cased, the empty string meaning "absent" (Python falsiness). -/
def dealScore (deal : String) (f : Fund) : Subscore × ℚ :=
  if deal ≠ "" then
    let raw : ℚ := if deal ∈ f.deal_types.map lowerStr then 1 else 0
    let contrib := 0.1 * raw
    ({ applied := true, raw := raw, weight := 0.1,
       contribution := round4 contrib }, contrib)
  else ({ applied := false, weight := 0.1 }, 0)

/-- `score_with_breakdown` of `tools.py`: the criteria preprocessing
(`inds`, `regs`, `deal`) that the Python performs once in `query_pe_db` is
performed here, which is equivalent since it only depends on `criteria`.
The total sums the five unrounded contributions in source order and is then
rounded to four decimals. -/
def score_with_breakdown (criteria : Criteria) (f : Fund) : ScoreResult :=
  let inds := (criteria.industries.map lowerStr).dedup
  let regs := (criteria.regions.map lowerStr).dedup
  let deal := lowerStr criteria.deal_type
  let i := industryScore inds f
  let r := regionScore regs f
  let v := rangeFitScore 0.2 criteria.revenue_usd f.revenue_focus_usd
  let e := rangeFitScore 0.1 criteria.employees f.employee_focus
  let d := dealScore deal f
  { score := round4 (i.2 + r.2 + v.2 + e.2 + d.2),
    subscores := { industry := i.1, region := r.1, revenue := v.1,
                   employees := e.1, deal := d.1 } }

/-- The result row `query_pe_db` builds for one fund. -/
def scoredOf (criteria : Criteria) (f : Fund) : ScoredFund :=
  let s := score_with_breakdown criteria f
  { fund := f.name, score := s.score, match_ := f, subscores := s.subscores }

/-- Stable descending insertion by a rational key: `x` is placed before the
first element whose key is ≤ its own, so elements with equal keys keep
their relative order when the whole list is sorted front to back. -/
def insertDescBy (s : α → ℚ) (x : α) : List α → List α
  | [] => [x]
  | y :: ys => if s x < s y then y :: insertDescBy s x ys else x :: y :: ys

/-- Stable descending sort by a rational key; models Python's stable
`sorted(..., key=..., reverse=True)`. -/
def sortDescBy (s : α → ℚ) : List α → List α
  | [] => []
  | x :: xs => insertDescBy s x (sortDescBy s xs)

/-- `query_pe_db` of `tools.py` after the dataset has been loaded: score
every fund in dataset order, then sort descending by score (stably). -/
def query_pe_db (criteria : Criteria) (funds : List Fund) : List ScoredFund :=
  sortDescBy (fun x => x.score) (funds.map (scoredOf criteria))

/-- The slice of a company profile consumed by `shortlist_pe_funds`
(`matcher.py`); the remaining profile fields (name, url, offerings,
summary, confidence) are never read by the matcher. -/
structure CompanyProfile where
  company_name : String := ""
  url : String := ""
  industries : List String := []
  locations : List String := []
  revenue_range_usd : Option NumRange := none
  employee_count_range : Option NumRange := none
deriving DecidableEq

/-- Python's substring test `x in t`. -/
def strContains (t x : String) : Bool := decide (x.data <:+: t.data)

/-- The keyword branches of the region-inference loop in
`shortlist_pe_funds`: first matching label for one location, if any. -/
def regionLabelFor (loc : String) : Option String :=
  let t := lowerStr loc
  if (["united states", "usa", "us", "california", "texas", "ny", "new york"]).any
      (fun x => strContains t x) then some ("US")
  else if (["canada", "ontario", "quebec"]).any (fun x => strContains t x) then
    some ("Canada")
  else if (["uk", "united kingdom", "england", "london", "europe"]).any
      (fun x => strContains t x) then some ("Europe")
  else none

/-- Python `list(dict.fromkeys(...))`: deduplicate keeping the first
occurrence of each element, preserving order; `seen` accumulates the
elements already emitted. -/
def dedupKeepFirst : List String → List String → List String
  | _, [] => []
  | seen, a :: l =>
    if a ∈ seen then dedupKeepFirst seen l else a :: dedupKeepFirst (a :: seen) l

/-- The `reg_labels` list of `shortlist_pe_funds`: one label per matching
location, deduplicated preserving first-seen order. -/
def deriveRegionLabels (locations : List String) : List String :=
  dedupKeepFirst [] (locations.filterMap regionLabelFor)

/-- The `regions` entry of the derived criteria: the derived labels, or the
default `["US"]` when no location matched (`reg_labels or ["US"]`). -/
def regionsFromLocations (locations : List String) : List String :=
  let reg_labels := deriveRegionLabels locations
  if reg_labels = [] then [("US")] else reg_labels

/-- The criteria dict `shortlist_pe_funds` builds from a company profile:
industries pass through, regions are derived (with US default), revenue and
employee ranges pass through when truthy, and deal type is always
`"Buyout"`. -/
def criteriaOf (p : CompanyProfile) : Criteria :=
  { industries := p.industries,
    regions := regionsFromLocations p.locations,
    revenue_usd := p.revenue_range_usd,
    employees := p.employee_count_range,
    deal_type := "Buyout" }

/-- The `rationale` dict attached to one shortlist entry. -/
structure Rationale where
  summary : String
  subscores : Breakdown
deriving DecidableEq

/-- One element of the list returned by `shortlist_pe_funds`. -/
structure ShortlistEntry where
  fund : String
  score : ℚ
  rationale : Rationale
deriving DecidableEq

/-- The rationale-attachment loop body of `shortlist_pe_funds` for one
ranked row: build the reason strings from the profile (using the pre-default
`reg_labels`), falling back to "generalist flexibility". -/
def mkEntry (p : CompanyProfile) (r : ScoredFund) : ShortlistEntry :=
  let f := r.match_
  let reg_labels := deriveRegionLabels p.locations
  let reasons : List String :=
    (if p.industries ≠ [] ∧
        (p.industries.map lowerStr).inter (f.industries.map lowerStr) ≠ [] then
      [("industry fit")] else []) ++
    (if reg_labels ≠ [] ∧
        (reg_labels.map lowerStr).inter (f.regions.map lowerStr) ≠ [] then
      [("region fit")] else []) ++
    (if p.revenue_range_usd.isSome then [("revenue range compatible")] else []) ++
    (if p.employee_count_range.isSome then [("employee range compatible")] else [])
  let reasons := if reasons = [] then [("generalist flexibility")] else reasons
  { fund := r.fund, score := r.score,
    rationale := { summary := String.intercalate (", ") reasons,
                   subscores := r.subscores } }

/-- `shortlist_pe_funds` of `matcher.py` after the dataset has been loaded:
derive criteria, rank all funds, over-fetch the top `2 × top_k`, attach
rationales, filter to score ≥ 0.2 and truncate to `top_k`. -/
def shortlist_pe_funds (p : CompanyProfile) (funds : List Fund) (top_k : ℕ) :
    List ShortlistEntry :=
  let ranked := query_pe_db (criteriaOf p) funds
  let out := (ranked.take (top_k * 2)).map (mkEntry p)
  (out.filter (fun x => decide ((0.2 : ℚ) ≤ x.score))).take top_k

/-- Modelled from the spec's words for the refinement comparison (§9 of the
design notes): the simpler pipeline that filters the full descending-sorted
ranking to score ≥ 0.2 and takes the first `top_k`, attaching the same
rationales. -/
def shortlist_simple (p : CompanyProfile) (funds : List Fund) (top_k : ℕ) :
    List ShortlistEntry :=
  let ranked := query_pe_db (criteriaOf p) funds
  ((ranked.filter (fun r => decide ((0.2 : ℚ) ≤ r.score))).take top_k).map (mkEntry p)

/-- Spec-side predicate for the revenue/employee scorers: the company range
lies fully within the fund's focus range on both bounds, a missing bound on
either side making that side's comparison automatically satisfied. -/
def rangeWithin (c fr : NumRange) : Prop :=
  (∀ a ∈ c.min, ∀ b ∈ fr.min, b ≤ a) ∧ (∀ a ∈ c.max, ∀ b ∈ fr.max, a ≤ b)

instance (c fr : NumRange) : Decidable (rangeWithin c fr) := by
  unfold rangeWithin; infer_instance

/-- The five scoring factors. -/
inductive Factor
  | industry
  | region
  | revenue
  | employees
  | deal
deriving DecidableEq

/-- The factor's criterion is absent from the criteria dict (falsy in the
Python code). -/
def absentIn (c : Criteria) : Factor → Prop
  | .industry => c.industries = []
  | .region => c.regions = []
  | .revenue => c.revenue_usd = none
  | .employees => c.employees = none
  | .deal => c.deal_type = ""

instance (c : Criteria) (fac : Factor) : Decidable (absentIn c fac) := by
  cases fac <;> (unfold absentIn; infer_instance)

/-- Projection of one factor's subscore out of a breakdown. -/
def subFor (b : Breakdown) : Factor → Subscore
  | .industry => b.industry
  | .region => b.region
  | .revenue => b.revenue
  | .employees => b.employees
  | .deal => b.deal

/-- The unrounded contribution one factor adds to the running total of
`score_with_breakdown`. -/
def contribOf (c : Criteria) (f : Fund) : Factor → ℚ
  | .industry => (industryScore ((c.industries.map lowerStr).dedup) f).2
  | .region => (regionScore ((c.regions.map lowerStr).dedup) f).2
  | .revenue => (rangeFitScore 0.2 c.revenue_usd f.revenue_focus_usd).2
  | .employees => (rangeFitScore 0.1 c.employees f.employee_focus).2
  | .deal => (dealScore (lowerStr c.deal_type) f).2

/-! ### Properties of the stable descending sort -/

theorem insertDescBy_perm (s : α → ℚ) (x : α) (l : List α) :
    List.Perm (insertDescBy s x l) (x :: l) := by
  induction l with
  | nil => rfl
  | cons y ys ih =>
    unfold insertDescBy
    split
    · exact (ih.cons y).trans (List.Perm.swap x y ys)
    · rfl

theorem sortDescBy_perm (s : α → ℚ) (l : List α) : List.Perm (sortDescBy s l) l := by
  induction l with
  | nil => rfl
  | cons x xs ih =>
    exact (insertDescBy_perm s x (sortDescBy s xs)).trans (ih.cons x)

theorem insertDescBy_pairwise (s : α → ℚ) (x : α) (l : List α)
    (h : l.Pairwise (fun a b => s b ≤ s a)) :
    (insertDescBy s x l).Pairwise (fun a b => s b ≤ s a) := by
  induction l with
  | nil => simp [insertDescBy]
  | cons y ys ih =>
    obtain ⟨h1, h2⟩ := List.pairwise_cons.mp h
    unfold insertDescBy
    split
    case isTrue hxy =>
      rw [List.pairwise_cons]
      refine ⟨fun z hz => ?_, ih h2⟩
      rcases List.mem_cons.mp ((insertDescBy_perm s x ys).mem_iff.mp hz) with rfl | hz2
      · exact le_of_lt hxy
      · exact h1 z hz2
    case isFalse hxy =>
      rw [List.pairwise_cons]
      refine ⟨fun z hz => ?_, h⟩
      rcases List.mem_cons.mp hz with rfl | hz2
      · exact not_lt.mp hxy
      · exact le_trans (h1 z hz2) (not_lt.mp hxy)

theorem sortDescBy_pairwise (s : α → ℚ) (l : List α) :
    (sortDescBy s l).Pairwise (fun a b => s b ≤ s a) := by
  induction l with
  | nil => simp [sortDescBy]
  | cons x xs ih => exact insertDescBy_pairwise s x _ ih

theorem insertDescBy_filter_eq_self (s : α → ℚ) (x : α) (l : List α) :
    (insertDescBy s x l).filter (fun z => decide (s z = s x)) =
      x :: l.filter (fun z => decide (s z = s x)) := by
  induction l with
  | nil => simp [insertDescBy]
  | cons y ys ih =>
    unfold insertDescBy
    split
    case isTrue hxy =>
      have hy : ¬ s y = s x := fun he => absurd hxy (by rw [he]; exact lt_irrefl _)
      simp only [List.filter_cons, decide_eq_true_eq, if_neg hy, ih]
    case isFalse hxy =>
      simp [List.filter_cons]

theorem insertDescBy_filter_ne (s : α → ℚ) (x : α) (l : List α) (q : ℚ)
    (hq : ¬ s x = q) :
    (insertDescBy s x l).filter (fun z => decide (s z = q)) =
      l.filter (fun z => decide (s z = q)) := by
  induction l with
  | nil => simp [insertDescBy, hq]
  | cons y ys ih =>
    unfold insertDescBy
    split
    · simp only [List.filter_cons, ih]
    · simp only [List.filter_cons, decide_eq_true_eq, if_neg hq]

theorem sortDescBy_filter_eq (s : α → ℚ) (l : List α) (q : ℚ) :
    (sortDescBy s l).filter (fun z => decide (s z = q)) =
      l.filter (fun z => decide (s z = q)) := by
  induction l with
  | nil => rfl
  | cons x xs ih =>
    show (insertDescBy s x (sortDescBy s xs)).filter _ = _
    by_cases hx : s x = q
    · subst hx
      rw [insertDescBy_filter_eq_self, ih, List.filter_cons]
      simp
    · rw [insertDescBy_filter_ne s x _ q hx, ih, List.filter_cons]
      simp [hx]

theorem filter_eq_takeWhile_of_pairwise (s : α → ℚ) (c : ℚ) (l : List α)
    (h : l.Pairwise (fun a b => s b ≤ s a)) :
    l.filter (fun z => decide (c ≤ s z)) =
      l.takeWhile (fun z => decide (c ≤ s z)) := by
  induction l with
  | nil => rfl
  | cons x xs ih =>
    obtain ⟨h1, h2⟩ := List.pairwise_cons.mp h
    by_cases hx : c ≤ s x
    · simp only [List.filter_cons, List.takeWhile_cons, decide_eq_true_eq,
        if_pos hx, ih h2]
    · have hnil : xs.filter (fun z => decide (c ≤ s z)) = [] := by
        rw [List.filter_eq_nil_iff]
        intro z hz
        simp only [decide_eq_true_eq]
        exact fun hc => hx (le_trans hc (h1 z hz))
      simp only [List.filter_cons, List.takeWhile_cons, decide_eq_true_eq,
        if_neg hx, hnil]

theorem takeWhile_take (p : α → Bool) :
    ∀ (l : List α) (n : ℕ), (l.take n).takeWhile p = (l.takeWhile p).take n
  | [], n => by simp
  | x :: xs, 0 => by simp
  | x :: xs, n + 1 => by
    by_cases hx : p x
    · simp only [List.take_succ_cons, List.takeWhile_cons, hx, if_true,
        takeWhile_take p xs n]
    · simp [List.takeWhile_cons, hx]

/-- Key lemma for the over-fetch pipeline: on a descending-sorted list,
truncating to the top `n` before threshold-filtering loses nothing from the
first `k ≤ n` surviving elements. -/
theorem take_filter_take (s : α → ℚ) (c : ℚ) (l : List α)
    (h : l.Pairwise (fun a b => s b ≤ s a)) (k n : ℕ) (hkn : k ≤ n) :
    ((l.take n).filter (fun z => decide (c ≤ s z))).take k =
      (l.filter (fun z => decide (c ≤ s z))).take k := by
  have hsub : (l.take n).Pairwise (fun a b => s b ≤ s a) :=
    List.Pairwise.sublist (List.take_sublist n l) h
  rw [filter_eq_takeWhile_of_pairwise s c _ hsub, takeWhile_take,
    List.take_take, Nat.min_eq_left hkn, filter_eq_takeWhile_of_pairwise s c l h]

/-! ### Bounds of the factor contributions -/

theorem le_qmax_left (a b : ℚ) : a ≤ qmax a b := by
  unfold qmax
  split
  case isTrue h => exact h
  case isFalse h => exact le_refl a

theorem qmin_one_bounds (x : ℚ) (hx : 0 ≤ x) : 0 ≤ qmin 1 x ∧ qmin 1 x ≤ 1 := by
  unfold qmin
  split
  case isTrue h => exact ⟨hx, h⟩
  case isFalse h => exact ⟨zero_le_one, le_refl 1⟩

theorem industryScore_snd (inds : List String) (f : Fund) :
    (industryScore inds f).2 = if inds ≠ [] then
      0.4 * qmin 1 (((inds.inter (f.industries.map lowerStr)).length : ℚ) /
        qmax 1 (inds.length : ℚ)) else 0 := by
  unfold industryScore
  split <;> rfl

theorem regionScore_snd (regs : List String) (f : Fund) :
    (regionScore regs f).2 = if regs ≠ [] then
      0.2 * (if 0 < (regs.inter (f.regions.map lowerStr)).length then (1 : ℚ) else 0)
      else 0 := by
  unfold regionScore
  split <;> rfl

theorem rangeFitScore_snd (w : ℚ) (cr : Option NumRange) (fr : NumRange) :
    (rangeFitScore w cr fr).2 = match cr with
      | some r => w *
          (if ((match r.min, fr.min with
                | some a, some b => decide (b ≤ a)
                | _, _ => true) &&
               (match r.max, fr.max with
                | some a, some b => decide (a ≤ b)
                | _, _ => true)) then (1 : ℚ) else 0)
      | none => 0 := by
  cases cr <;> rfl

theorem dealScore_snd (deal : String) (f : Fund) :
    (dealScore deal f).2 = if deal ≠ "" then
      0.1 * (if deal ∈ f.deal_types.map lowerStr then (1 : ℚ) else 0) else 0 := by
  unfold dealScore
  split <;> rfl

theorem industryScore_contrib_bounds (inds : List String) (f : Fund) :
    0 ≤ (industryScore inds f).2 ∧ (industryScore inds f).2 ≤ 0.4 := by
  rw [industryScore_snd]
  split
  · have hx : 0 ≤ ((inds.inter (f.industries.map lowerStr)).length : ℚ) /
        qmax 1 (inds.length : ℚ) :=
      div_nonneg (Nat.cast_nonneg _) (le_trans zero_le_one (le_qmax_left _ _))
    obtain ⟨h0, h1⟩ := qmin_one_bounds _ hx
    constructor <;> nlinarith
  · norm_num

theorem regionScore_contrib_bounds (regs : List String) (f : Fund) :
    0 ≤ (regionScore regs f).2 ∧ (regionScore regs f).2 ≤ 0.2 := by
  rw [regionScore_snd]
  split
  · split_ifs <;> norm_num
  · norm_num

theorem rangeFitScore_contrib_bounds (w : ℚ) (hw : 0 ≤ w) (cr : Option NumRange)
    (fr : NumRange) : 0 ≤ (rangeFitScore w cr fr).2 ∧ (rangeFitScore w cr fr).2 ≤ w := by
  rw [rangeFitScore_snd]
  cases cr with
  | none => exact ⟨le_refl 0, hw⟩
  | some r =>
    dsimp only
    split_ifs <;> constructor <;> nlinarith

theorem dealScore_contrib_bounds (deal : String) (f : Fund) :
    0 ≤ (dealScore deal f).2 ∧ (dealScore deal f).2 ≤ 0.1 := by
  rw [dealScore_snd]
  split
  · split_ifs <;> norm_num
  · norm_num

/-- The composite score is the rounded sum of the five factors' unrounded
contributions (definitional repackaging of `score_with_breakdown`). -/
theorem score_eq_round4_sum (c : Criteria) (f : Fund) :
    (score_with_breakdown c f).score =
      round4 (contribOf c f .industry + contribOf c f .region +
        contribOf c f .revenue + contribOf c f .employees + contribOf c f .deal) := rfl

theorem round4_bounds (q : ℚ) (h0 : 0 ≤ q) (h1 : q ≤ 1) :
    0 ≤ round4 q ∧ round4 q ≤ 1 := by
  unfold round4
  constructor
  · apply div_nonneg _ (by norm_num)
    have h : (0 : ℤ) ≤ ⌊q * 10000 + 1/2⌋ := Int.floor_nonneg.mpr (by linarith)
    exact_mod_cast h
  · rw [div_le_one (by norm_num : (0 : ℚ) < 10000)]
    have h2 : ⌊q * 10000 + 1/2⌋ ≤ ⌊(10000 : ℚ) + 1/2⌋ :=
      Int.floor_le_floor (by linarith)
    have h3 : ⌊(10000 : ℚ) + 1/2⌋ = 10000 := by norm_num
    rw [h3] at h2
    exact_mod_cast h2

/-- C3: for every criteria object and every fund record, the composite
score produced by the scoring engine lies in [0, 1]. -/
theorem composite_score_in_unit_interval (c : Criteria) (f : Fund) :
    0 ≤ (score_with_breakdown c f).score ∧ (score_with_breakdown c f).score ≤ 1 := by
  obtain ⟨hi0, hi1⟩ := industryScore_contrib_bounds ((c.industries.map lowerStr).dedup) f
  obtain ⟨hr0, hr1⟩ := regionScore_contrib_bounds ((c.regions.map lowerStr).dedup) f
  obtain ⟨hv0, hv1⟩ := rangeFitScore_contrib_bounds 0.2 (by norm_num)
    c.revenue_usd f.revenue_focus_usd
  obtain ⟨he0, he1⟩ := rangeFitScore_contrib_bounds 0.1 (by norm_num)
    c.employees f.employee_focus
  obtain ⟨hd0, hd1⟩ := dealScore_contrib_bounds (lowerStr c.deal_type) f
  rw [score_eq_round4_sum]
  exact round4_bounds _ (by unfold contribOf; linarith) (by unfold contribOf; norm_num; linarith)

/-! ### Characterisation of the range-fit factors -/

theorem rangeWithin_iff_ok (r fr : NumRange) :
    (((match r.min, fr.min with
       | some a, some b => decide (b ≤ a)
       | _, _ => true) &&
      (match r.max, fr.max with
       | some a, some b => decide (a ≤ b)
       | _, _ => true)) = true) ↔ rangeWithin r fr := by
  rcases r with ⟨rmin, rmax⟩
  rcases fr with ⟨fmin, fmax⟩
  unfold rangeWithin
  rcases rmin with _ | a <;> rcases fmin with _ | b <;>
    rcases rmax with _ | x <;> rcases fmax with _ | y <;>
      simp [Option.mem_def]

theorem rangeFitScore_raw (w : ℚ) (r fr : NumRange) :
    (rangeFitScore w (some r) fr).1.raw =
      if rangeWithin r fr then 1 else 0 := by
  have h := rangeWithin_iff_ok r fr
  show (if ((match r.min, fr.min with
             | some a, some b => decide (b ≤ a)
             | _, _ => true) &&
            (match r.max, fr.max with
             | some a, some b => decide (a ≤ b)
             | _, _ => true)) then (1 : ℚ) else 0) = _
  by_cases hw : rangeWithin r fr
  · rw [if_pos (h.mpr hw), if_pos hw]
  · rw [if_neg (fun hb => hw (h.mp hb)), if_neg hw]

theorem ite_one_zero_eq (P : Prop) [Decidable P] :
    ((if P then (1 : ℚ) else 0) = 1 ↔ P) ∧ ((if P then (1 : ℚ) else 0) = 0 ↔ ¬ P) := by
  split_ifs with h <;> constructor <;> simp [h]

/-- C4: whenever the criteria contain a revenue range, the revenue
factor's raw score is 1.0 iff the company range lies fully within the
fund's focus range on both bounds (missing bounds counting as satisfied)
and is 0.0 otherwise; and independently the same holds for the employee
factor whenever the criteria contain an employee range. -/
theorem range_factor_raw_iff_within (c : Criteria) (f : Fund) :
    (∀ r, c.revenue_usd = some r →
      (((score_with_breakdown c f).subscores.revenue.raw = 1 ↔
          rangeWithin r f.revenue_focus_usd) ∧
       ((score_with_breakdown c f).subscores.revenue.raw = 0 ↔
          ¬ rangeWithin r f.revenue_focus_usd))) ∧
    (∀ e, c.employees = some e →
      (((score_with_breakdown c f).subscores.employees.raw = 1 ↔
          rangeWithin e f.employee_focus) ∧
       ((score_with_breakdown c f).subscores.employees.raw = 0 ↔
          ¬ rangeWithin e f.employee_focus))) := by
  constructor
  · intro r hr
    have hv : (score_with_breakdown c f).subscores.revenue.raw =
        if rangeWithin r f.revenue_focus_usd then 1 else 0 := by
      show (rangeFitScore 0.2 c.revenue_usd f.revenue_focus_usd).1.raw = _
      rw [hr, rangeFitScore_raw]
    rw [hv]
    exact ite_one_zero_eq _
  · intro e he
    have hemp : (score_with_breakdown c f).subscores.employees.raw =
        if rangeWithin e f.employee_focus then 1 else 0 := by
      show (rangeFitScore 0.1 c.employees f.employee_focus).1.raw = _
      rw [he, rangeFitScore_raw]
    rw [hemp]
    exact ite_one_zero_eq _

/-- C4 witness: a concrete criteria dict carrying only a revenue range (no
employee range), showing the revenue biconditional holds on its own. -/
theorem range_factor_raw_iff_within_witness :
    ((score_with_breakdown { revenue_usd := some { min := some 5, max := some 6 } }
        { name := "W", revenue_focus_usd := { min := some 1, max := some 9 } }
        ).subscores.revenue.raw = 1 ↔
      rangeWithin { min := some 5, max := some 6 }
        ({ name := "W", revenue_focus_usd := { min := some 1, max := some 9 } } :
          Fund).revenue_focus_usd) ∧
    ((score_with_breakdown { revenue_usd := some { min := some 5, max := some 6 } }
        { name := "W", revenue_focus_usd := { min := some 1, max := some 9 } }
        ).subscores.revenue.raw = 0 ↔
      ¬ rangeWithin { min := some 5, max := some 6 }
        ({ name := "W", revenue_focus_usd := { min := some 1, max := some 9 } } :
          Fund).revenue_focus_usd) :=
  (range_factor_raw_iff_within
    { revenue_usd := some { min := some 5, max := some 6 } }
    { name := "W", revenue_focus_usd := { min := some 1, max := some 9 } }).1
    { min := some 5, max := some 6 } rfl

/-- C5: the ranking engine returns all scored funds, sorted descending by
composite score, and among equal scores the original dataset order is
preserved (filtering both lists to any fixed score value yields the same
sequence). -/
theorem rank_funds_sorted_stable (criteria : Criteria) (funds : List Fund) :
    List.Perm (query_pe_db criteria funds) (funds.map (scoredOf criteria)) ∧
    (query_pe_db criteria funds).Pairwise (fun a b => b.score ≤ a.score) ∧
    ∀ q : ℚ, (query_pe_db criteria funds).filter (fun x => decide (x.score = q)) =
      (funds.map (scoredOf criteria)).filter (fun x => decide (x.score = q)) :=
  ⟨sortDescBy_perm _ _, sortDescBy_pairwise _ _,
    fun q => sortDescBy_filter_eq _ _ q⟩

/-- C7: a factor whose criterion is absent from the criteria yields a
subscore with `applied = false` and contributes exactly 0 to the composite
score (which is the rounded sum of the five contributions). -/
theorem absent_factor_contributes_zero (c : Criteria) (f : Fund) (fac : Factor)
    (h : absentIn c fac) :
    (subFor (score_with_breakdown c f).subscores fac).applied = false ∧
    contribOf c f fac = 0 ∧
    (score_with_breakdown c f).score =
      round4 (contribOf c f .industry + contribOf c f .region +
        contribOf c f .revenue + contribOf c f .employees + contribOf c f .deal) := by
  refine ⟨?_, ?_, rfl⟩ <;>
    cases fac <;>
      simp_all [absentIn, subFor, contribOf, score_with_breakdown, industryScore,
        regionScore, rangeFitScore, dealScore, lowerStr]

/-- C7 witness: criteria with only an industry list; the revenue factor is
absent for a concrete fund. -/
theorem absent_factor_contributes_zero_witness :
    (subFor (score_with_breakdown { industries := [("Software")] }
        { name := "W2" }).subscores .revenue).applied = false ∧
    contribOf { industries := [("Software")] } { name := "W2" } .revenue = 0 ∧
    (score_with_breakdown { industries := [("Software")] } { name := "W2" }).score =
      round4 (contribOf { industries := [("Software")] } { name := "W2" } .industry +
        contribOf { industries := [("Software")] } { name := "W2" } .region +
        contribOf { industries := [("Software")] } { name := "W2" } .revenue +
        contribOf { industries := [("Software")] } { name := "W2" } .employees +
        contribOf { industries := [("Software")] } { name := "W2" } .deal) :=
  absent_factor_contributes_zero { industries := [("Software")] } { name := "W2" }
    .revenue rfl

/-- C10: scoring never replaces or alters a fund record: the `match` fields
of the ranking output are exactly the loaded records (as a permutation),
and every output row embeds a record of the dataset unchanged. -/
theorem scoring_preserves_records (criteria : Criteria) (funds : List Fund) :
    List.Perm ((query_pe_db criteria funds).map (fun r => r.match_)) funds ∧
    ∀ r ∈ query_pe_db criteria funds, r.match_ ∈ funds := by
  have heq : (funds.map (scoredOf criteria)).map (fun r => r.match_) = funds := by
    rw [List.map_map]
    exact List.map_id'' (fun f => rfl) funds
  constructor
  · have hperm := (sortDescBy_perm (fun x : ScoredFund => x.score)
      (funds.map (scoredOf criteria))).map (fun r => r.match_)
    rw [heq] at hperm
    exact hperm
  · intro r hr
    have hmem : r ∈ funds.map (scoredOf criteria) :=
      (sortDescBy_perm _ _).mem_iff.mp hr
    obtain ⟨f, hf, rfl⟩ := List.mem_map.mp hmem
    exact hf

/-! ### Concrete inputs used by the remaining claims -/

/-- A company profile with zero extracted fields. -/
def profile0 : CompanyProfile := {}

/-- A fund focused on US buyouts with no other data. -/
def fundUS : Fund := { name := "Evergreen", regions := [("US")], deal_types := [("Buyout")] }

/-- Criteria with a point revenue interval (the §8 revenue-scorer example). -/
def c2 : Criteria := { revenue_usd := some { min := some 20000000, max := some 20000000 } }

/-- Fund with revenue focus 10M–50M (the §8 revenue-scorer example). -/
def f2 : Fund := { name := "F2", revenue_focus_usd := { min := some 10000000, max := some 50000000 } }

theorem lowerStr_Buyout : lowerStr ("Buyout") = "buyout" := by decide

theorem lowerStr_US : lowerStr ("US") = "us" := by decide

theorem buyout_ne_empty : (("buyout" : String) = "") = False := by
  refine eq_false ?_
  decide

theorem round4_zero : round4 0 = 0 := by norm_num [round4]

/-- With a fully empty criteria dict every factor is skipped and the
composite score is 0. -/
theorem score_empty_criteria (f : Fund) : (score_with_breakdown {} f).score = 0 := by
  show round4 (0 + 0 + 0 + 0 + 0) = 0
  norm_num [round4_zero]

/-- C1 amended: a fully empty criteria object passed directly to the
scoring engine does make every factor `applied = false`, every composite
score 0, and the ≥ 0.2 threshold filter empty; but the criteria derived
from a zero-field company profile are not degenerate — they carry the
defaults regions = {US} and deal_type = Buyout. -/
theorem degenerate_criteria_zero_scores (f : Fund) (funds : List Fund) :
    (score_with_breakdown {} f).score = 0 ∧
    ((score_with_breakdown {} f).subscores.industry.applied = false ∧
     (score_with_breakdown {} f).subscores.region.applied = false ∧
     (score_with_breakdown {} f).subscores.revenue.applied = false ∧
     (score_with_breakdown {} f).subscores.employees.applied = false ∧
     (score_with_breakdown {} f).subscores.deal.applied = false) ∧
    (query_pe_db {} funds).filter (fun r => decide ((0.2 : ℚ) ≤ r.score)) = [] ∧
    (criteriaOf {}).regions = [("US")] ∧ (criteriaOf {}).deal_type = "Buyout" := by
  refine ⟨score_empty_criteria f, ⟨rfl, rfl, rfl, rfl, rfl⟩, ?_, rfl, rfl⟩
  rw [List.filter_eq_nil_iff]
  intro r hr
  obtain ⟨g, hg, rfl⟩ := List.mem_map.mp ((sortDescBy_perm _ _).mem_iff.mp hr)
  have hs : (scoredOf {} g).score = 0 := score_empty_criteria g
  rw [hs]
  norm_num

/-- C1 counterexample: the zero-field profile run through the actual
pipeline yields non-degenerate criteria (regions default to {US}, deal type
to Buyout); the US buyout fund scores 0.3, the region and deal factors are
applied, and the shortlist is non-empty. -/
theorem empty_profile_nonempty_shortlist :
    (shortlist_pe_funds profile0 [fundUS] 5).map (fun e => (e.fund, e.score)) =
      [(("Evergreen"), (0.3 : ℚ))] ∧
    (score_with_breakdown (criteriaOf profile0) fundUS).subscores.region.applied = true ∧
    (score_with_breakdown (criteriaOf profile0) fundUS).subscores.deal.applied = true := by
  norm_num [profile0, fundUS, criteriaOf, regionsFromLocations, deriveRegionLabels,
    dedupKeepFirst, shortlist_pe_funds, query_pe_db, sortDescBy, insertDescBy,
    scoredOf, mkEntry, score_with_breakdown, industryScore, regionScore,
    rangeFitScore, dealScore, lowerStr_Buyout, lowerStr_US, buyout_ne_empty, qmax,
    qmin, round4, List.inter]

/-- C2 counterexample: for the point company interval {20M, 20M} against
fund focus {10M, 50M}, the diagnostic coverage ratio computed by the code
is 0.0, not ≈ 1.0: the intersection interval has length 0 while the
epsilon-clamped denominator is 1e-9. -/
theorem point_interval_coverage_not_one :
    (score_with_breakdown c2 f2).subscores.revenue.coverage_ratio = some 0 ∧
    ¬ (score_with_breakdown c2 f2).subscores.revenue.coverage_ratio = some 1 := by
  norm_num [c2, f2, score_with_breakdown, rangeFitScore, _range_coverage, qmax, qmin]

/-- C2 amended: for the point interval {20M, 20M} inside fund focus
{10M, 50M}, binary_fit = 1.0 but coverage_ratio = 0.0 (coverage does not
saturate toward 1 for zero-length company intervals). -/
theorem point_interval_binary_fit_one_coverage_zero :
    (score_with_breakdown c2 f2).subscores.revenue.binary_fit = 1 ∧
    (score_with_breakdown c2 f2).subscores.revenue.coverage_ratio = some 0 := by
  norm_num [c2, f2, score_with_breakdown, rangeFitScore, _range_coverage, qmax, qmin]

/-- C6: the shortlist has length at most `top_k`, every entry clears the
0.2 threshold, and (projected to fund name and score) it is a subsequence
of the ranking engine's output restricted to scores ≥ 0.2. -/
theorem shortlist_props (p : CompanyProfile) (funds : List Fund) (top_k : ℕ) :
    (shortlist_pe_funds p funds top_k).length ≤ top_k ∧
    (∀ e ∈ shortlist_pe_funds p funds top_k, (0.2 : ℚ) ≤ e.score) ∧
    List.Sublist ((shortlist_pe_funds p funds top_k).map (fun e => (e.fund, e.score)))
      (((query_pe_db (criteriaOf p) funds).filter
          (fun r => decide ((0.2 : ℚ) ≤ r.score))).map (fun r => (r.fund, r.score))) := by
  refine ⟨List.length_take_le _ _, ?_, ?_⟩
  · intro e he
    have he2 := List.take_subset _ _ he
    exact of_decide_eq_true (List.mem_filter.mp he2).2
  · show List.Sublist
      (((((((query_pe_db (criteriaOf p) funds).take (top_k * 2)).map (mkEntry p)).filter
        (fun x => decide ((0.2 : ℚ) ≤ x.score))).take top_k).map
          (fun e => (e.fund, e.score)))) _
    rw [List.filter_map, ← List.map_take, List.map_map]
    exact List.Sublist.map _
      ((List.take_sublist _ _).trans (List.Sublist.filter _ (List.take_sublist _ _)))

/-- C9: because the ranking is sorted descending, the implemented
over-fetch pipeline (take top 2·top_k, filter to score ≥ 0.2, truncate to
top_k) returns exactly the simple pipeline's result (filter the full
ranking, take top_k); the over-fetch never under-fills the shortlist. -/
theorem overfetch_matches_full_filter (p : CompanyProfile) (funds : List Fund)
    (top_k : ℕ) (h : 1 ≤ top_k) :
    shortlist_pe_funds p funds top_k = shortlist_simple p funds top_k := by
  show ((((query_pe_db (criteriaOf p) funds).take (top_k * 2)).map (mkEntry p)).filter
      (fun x => decide ((0.2 : ℚ) ≤ x.score))).take top_k =
    (((query_pe_db (criteriaOf p) funds).filter
      (fun r => decide ((0.2 : ℚ) ≤ r.score))).take top_k).map (mkEntry p)
  rw [List.filter_map, ← List.map_take]
  congr 1
  exact take_filter_take (fun x : ScoredFund => x.score) 0.2 _
    (sortDescBy_pairwise _ _) top_k (top_k * 2) (by omega)

/-- C9 witness: the two pipelines agree on a concrete profile, dataset and
`top_k = 1`. -/
theorem overfetch_matches_full_filter_witness :
    1 ≤ 1 ∧ shortlist_pe_funds profile0 [fundUS] 1 = shortlist_simple profile0 [fundUS] 1 :=
  ⟨le_refl 1, overfetch_matches_full_filter profile0 [fundUS] 1 (le_refl 1)⟩

/-- C8: region derivation maps "San Francisco, California, USA" to {US},
"London, UK" to {Europe}, and the empty location list to the default {US}. -/
theorem region_derivation_examples :
    regionsFromLocations [("San Francisco, California, USA")] = [("US")] ∧
    regionsFromLocations [("London, UK")] = [("Europe")] ∧
    regionsFromLocations [] = [("US")] := by
  decide

end PEMatcher
